import Mathlib

/-!
Shallow embedding of the magba analytical magnetostatics library.

Floating-point `f64` values are modelled as real numbers; real arithmetic in
Lean is noncomputable, so the embedding is stated over `ℝ` and evaluated on
concrete inputs through `simp`/`norm_num`.

A Rust function can finish in four observably different ways, all of which the
source exercises: return `Ok`, return `Err`, panic (`expect`/`unwrap`), or loop
forever (the `while` loop in `cel` has no iteration cap).  `Outcome` records
all four.
-/

open scoped Classical

noncomputable section

/-- Result of running a piece of Rust code: normal return (`ok`), an `Err`
value (`err`), a panic raised by `expect`/`unwrap` (`panicked`), or an
infinite loop (`diverge`). -/
inductive Outcome (α : Type) where
  | ok : α → Outcome α
  | err : String → Outcome α
  | panicked : String → Outcome α
  | diverge : Outcome α

namespace Outcome

/-- Sequencing: models Rust's `?` operator and ordinary control flow.  An
`Err`, panic or infinite loop in the first computation aborts the second. -/
def bind {α β : Type} : Outcome α → (α → Outcome β) → Outcome β
  | ok a, f => f a
  | err e, _ => err e
  | panicked m, _ => panicked m
  | diverge, _ => diverge

/-- Mapping over a successful result. -/
def map {α β : Type} (f : α → β) : Outcome α → Outcome β
  | ok a => ok (f a)
  | err e => err e
  | panicked m => panicked m
  | diverge => diverge

/-- Models Rust's `.expect(msg)`: an `Err` becomes a panic carrying `msg`. -/
def expectMsg {α : Type} (msg : String) : Outcome α → Outcome α
  | ok a => ok a
  | err _ => panicked msg
  | panicked m => panicked m
  | diverge => diverge

/-- Models Rust's `.unwrap()`: an `Err e` becomes a panic carrying `e`. -/
def unwrapO {α : Type} : Outcome α → Outcome α
  | ok a => ok a
  | err e => panicked e
  | panicked m => panicked m
  | diverge => diverge

end Outcome

/-! ## `src/util.rs` -/

/-- `util::is_close`: `(a - b).abs() <= rtol * b.abs()`. -/
def is_close (a b rtol : ℝ) : Prop := |a - b| ≤ rtol * |b|

/-! ## `src/constants.rs` -/

/-- `constants::ERRTOL = 0.000001`. -/
def ERRTOL : ℝ := 0.000001

/-- `constants::MU0 = 4e-7 * PI`. -/
def MU0 : ℝ := 4e-7 * Real.pi

/-! ## `src/special/cel.rs`

`cel(kc, p, c, s)` first rejects `kc == 0`, then initialises the loop
variables (case split on the sign of `p`), and runs a `while` loop with no
iteration cap until `(g - k).abs() <= g * ERRTOL`.  The loop state is captured
by `CelSt`; `celInit` is the code before the loop, `celStep` one loop body,
and `cel` returns the closed-form combination at the first state where the
loop guard fails — or `diverge` if the guard never fails. -/

/-- The mutable locals of `cel`'s main loop, in source order of declaration. -/
structure CelSt where
  k : ℝ
  cc : ℝ
  ss : ℝ
  pp : ℝ
  em : ℝ
  g : ℝ
  f : ℝ
  kk : ℝ

/-- The `(cc, pp, ss)` triple set up by the branch on the sign of `p`. -/
structure CelSetup where
  cc : ℝ
  pp : ℝ
  ss : ℝ

/-- The branch on `p > 0.0` in `cel`: the positive branch takes square roots
directly; the non-positive branch substitutes using `f = kc*kc`,
`q = (1-f)*(s - c*p)`, `g = 1-p`, `h = f-p`. -/
def celSetup (kc p c s : ℝ) : CelSetup :=
  if 0 < p then
    ⟨c, Real.sqrt p, s / Real.sqrt p⟩
  else
    ⟨(c - s) / (1 - p),
     Real.sqrt ((kc * kc - p) / (1 - p)),
     -((1 - kc * kc) * (s - c * p)) / ((1 - p) * (1 - p) * Real.sqrt ((kc * kc - p) / (1 - p)))
       + (c - s) / (1 - p) * Real.sqrt ((kc * kc - p) / (1 - p))⟩

/-- The straight-line code between the branch and the `while` loop:
`em = 1; f = cc; cc = cc + ss/pp; g = k/pp; ss = 2*(ss + f*g); pp = g + pp;
g = em; em = k + em; kk = k`, with `k = kc.abs()`. -/
def celInit (kc p c s : ℝ) : CelSt :=
  ⟨|kc|,
   (celSetup kc p c s).cc + (celSetup kc p c s).ss / (celSetup kc p c s).pp,
   2 * ((celSetup kc p c s).ss + (celSetup kc p c s).cc * (|kc| / (celSetup kc p c s).pp)),
   |kc| / (celSetup kc p c s).pp + (celSetup kc p c s).pp,
   |kc| + 1,
   1,
   (celSetup kc p c s).cc,
   |kc|⟩

/-- One iteration of the `while` loop:
`k = 2*kk.sqrt(); kk = k*em; f = cc; cc = cc + ss/pp; g = kk/pp;
ss = 2*(ss + f*g); pp = g + pp; g = em; em = k + em`. -/
def celStep (st : CelSt) : CelSt :=
  ⟨2 * Real.sqrt st.kk,
   st.cc + st.ss / st.pp,
   2 * (st.ss + st.cc * (2 * Real.sqrt st.kk * st.em / st.pp)),
   2 * Real.sqrt st.kk * st.em / st.pp + st.pp,
   2 * Real.sqrt st.kk + st.em,
   st.em,
   st.cc,
   2 * Real.sqrt st.kk * st.em⟩

/-- Negation of the loop guard `(g - k).abs() > g * ERRTOL`: the loop stops at
the first state satisfying this. -/
def celDone (st : CelSt) : Prop := |st.g - st.k| ≤ st.g * ERRTOL

/-- The return value `(PI / 2.0) * (ss + cc * em) / (em * (em + pp))`. -/
def celResult (st : CelSt) : ℝ :=
  Real.pi / 2 * (st.ss + st.cc * st.em) / (st.em * (st.em + st.pp))

/-- `special::cel`.  Returns `Err` exactly when `kc == 0`; otherwise runs the
uncapped `while` loop, yielding the closed-form value at the first state where
the guard fails, and `diverge` if the guard never fails. -/
def cel (kc p c s : ℝ) : Outcome ℝ :=
  if kc = 0 then .err "fn cel: kc cannot be zero."
  else if h : ∃ n, celDone (celStep^[n] (celInit kc p c s)) then
    .ok (celResult (celStep^[Nat.find h] (celInit kc p c s)))
  else .diverge

/-! ## 3D vectors and unit quaternions

`nalgebra`'s `Point3<f64>` / `Vector3<f64>` are both triples of reals here;
`UnitQuaternion<f64>` is a Mathlib quaternion used through multiplication,
conjugation (`inverse` of a unit quaternion is its conjugate) and the rotation
action `q v q*`. -/

/-- A `Point3<f64>` / `Vector3<f64>`. -/
@[ext]
structure Vec3 where
  x : ℝ
  y : ℝ
  z : ℝ

namespace Vec3

instance : Zero Vec3 := ⟨⟨0, 0, 0⟩⟩

instance : Add Vec3 := ⟨fun a b => ⟨a.x + b.x, a.y + b.y, a.z + b.z⟩⟩

instance : Sub Vec3 := ⟨fun a b => ⟨a.x - b.x, a.y - b.y, a.z - b.z⟩⟩

instance : SMul ℝ Vec3 := ⟨fun r a => ⟨r * a.x, r * a.y, r * a.z⟩⟩

end Vec3

/-- Sum of a list of vectors, as produced by the Rust `Iterator::sum`. -/
def vsum (l : List Vec3) : Vec3 := l.foldr (· + ·) 0

/-- An orientation: `UnitQuaternion<f64>`.  The unit-norm invariant enforced
by `nalgebra`'s type appears as an explicit `normSq q = 1` hypothesis where a
proof needs it. -/
abbrev Quat := Quaternion ℝ

/-- Embed a vector as a pure quaternion. -/
def toQ (v : Vec3) : Quat := ⟨0, v.x, v.y, v.z⟩

/-- The vector part of a quaternion. -/
def vecOf (q : Quat) : Vec3 := ⟨q.imI, q.imJ, q.imK⟩

/-- The rotation action of a unit quaternion on a vector: `q v q*`, i.e.
`nalgebra`'s `quaternion * vector`.  (`inverse` of a unit quaternion is its
conjugate, so `q.inverse() * v` is modelled as `rotAct (star q) v`.) -/
def rotAct (q : Quat) (v : Vec3) : Vec3 := vecOf (q * toQ v * star q)

/-! ## `src/geometry/coordinate.rs` -/

/-- `f64::atan2`: `atan2 y x` is the argument of the complex number `x + i y`,
with range `(-π, π]` and `atan2 0 0 = 0`. -/
def atan2 (y x : ℝ) : ℝ := Complex.arg ⟨x, y⟩

/-- `cart2cyl(x, y) -> (r, phi)`. -/
def cart2cyl (x y : ℝ) : ℝ × ℝ := (Real.sqrt (x * x + y * y), atan2 y x)

/-- `vec_cyl2cart(r, phi, theta) -> (x, y)`. -/
def vec_cyl2cart (r phi theta : ℝ) : ℝ × ℝ :=
  (r * Real.cos theta - phi * Real.sin theta, r * Real.sin theta + phi * Real.cos theta)

/-- `local_point`: `orientation.inverse() * (point - position)`. -/
def local_point (point position : Vec3) (orientation : Quat) : Vec3 :=
  rotAct (star orientation) (point - position)

/-- `local_points`: map `local_point` over a point list. -/
def local_points (points : List Vec3) (position : Vec3) (orientation : Quat) : List Vec3 :=
  points.map (fun point => local_point point position orientation)

/-- `global_vector`: `orientation * vector`. -/
def global_vector (vector : Vec3) (orientation : Quat) : Vec3 := rotAct orientation vector

/-- `global_vectors`: map `global_vector` over a vector list. -/
def global_vectors (local_vectors : List Vec3) (orientation : Quat) : List Vec3 :=
  local_vectors.map (fun v => global_vector v orientation)

/-! ## `src/fields/field_cylinder.rs`

The diametric general branch calls `ellipk`/`ellipe` from the external `ellip`
crate, whose source is not part of this repository; they are abstracted as an
explicit parameter `E : EllipApi` threaded through the field functions, so
every theorem below holds for an arbitrary implementation of that crate. -/

/-- The two complete elliptic integral evaluators imported from the external
`ellip` crate (`use ellip::{ellipe, ellipk}`), abstracted as parameters. -/
structure EllipApi where
  ellipk : ℝ → Outcome ℝ
  ellipe : ℝ → Outcome ℝ

/-- An `EllipApi` used to instantiate theorems whose conclusion cannot depend
on the external crate (the diametric branch is skipped when `pol_r == 0`). -/
def someEllip : EllipApi := ⟨fun _ => .diverge, fun _ => .diverge⟩

/-- `unit_axial_cyl_B_cyl(r, z, z0)`: axial unit-polarization field in
cylindrical components, built from four `cel` evaluations (each behind `?`). -/
def unit_axial_cyl_B_cyl (r z z0 : ℝ) : Outcome Vec3 :=
  Outcome.bind (cel (Real.sqrt (((z + z0) * (z + z0) + (1 - r) * (1 - r)) /
      ((z + z0) * (z + z0) + (1 + r) * (1 + r)))) 1 1 (-1)) (fun celp1 =>
  Outcome.bind (cel (Real.sqrt (((z - z0) * (z - z0) + (1 - r) * (1 - r)) /
      ((z - z0) * (z - z0) + (1 + r) * (1 + r)))) 1 1 (-1)) (fun celm1 =>
  Outcome.bind (cel (Real.sqrt (((z + z0) * (z + z0) + (1 - r) * (1 - r)) /
      ((z + z0) * (z + z0) + (1 + r) * (1 + r))))
      (((1 - r) / (1 + r)) * ((1 - r) / (1 + r))) 1 ((1 - r) / (1 + r))) (fun celp2 =>
  Outcome.bind (cel (Real.sqrt (((z - z0) * (z - z0) + (1 - r) * (1 - r)) /
      ((z - z0) * (z - z0) + (1 + r) * (1 + r))))
      (((1 - r) / (1 + r)) * ((1 - r) / (1 + r))) 1 ((1 - r) / (1 + r))) (fun celm2 =>
  .ok ⟨(celp1 / Real.sqrt ((z + z0) * (z + z0) + (1 + r) * (1 + r))
        - celm1 / Real.sqrt ((z - z0) * (z - z0) + (1 + r) * (1 + r))) / Real.pi,
       0,
       ((z + z0) * celp2 / Real.sqrt ((z + z0) * (z + z0) + (1 + r) * (1 + r))
        - (z - z0) * celm2 / Real.sqrt ((z - z0) * (z - z0) + (1 + r) * (1 + r)))
       / ((1 + r) * Real.pi)⟩))))

/-- Taylor branch local `zpp = zp2 + 1.0` (with `zp = z + z0`). -/
def zppV (z z0 : ℝ) : ℝ := (z + z0) * (z + z0) + 1

/-- Taylor branch local `zmm = zm2 + 1.0` (with `zm = z - z0`). -/
def zmmV (z z0 : ℝ) : ℝ := (z - z0) * (z - z0) + 1

/-- Taylor branch local `frac1 = zp / sqrt_p`. -/
def frac1V (z z0 : ℝ) : ℝ := (z + z0) / Real.sqrt (zppV z z0)

/-- Taylor branch local `frac2 = zm / sqrt_m`. -/
def frac2V (z z0 : ℝ) : ℝ := (z - z0) / Real.sqrt (zmmV z z0)

/-- Taylor branch local `term1 = frac1 - frac2`. -/
def taylorTerm1 (z z0 : ℝ) : ℝ := frac1V z z0 - frac2V z z0

/-- Taylor branch local `term2 = (frac1/zpp2 - frac2/zmm2) * r2 / 8.0`. -/
def taylorTerm2 (r z z0 : ℝ) : ℝ :=
  (frac1V z z0 / (zppV z z0 ^ 2) - frac2V z z0 / (zmmV z z0 ^ 2)) * (r * r) / 8

/-- Taylor branch local
`term3 = ((3-4*zp2)*frac1/zpp4 - (3-4*zm2)*frac2/zmm4) / 64.0 * r4`. -/
def taylorTerm3 (r z z0 : ℝ) : ℝ :=
  ((3 - 4 * ((z + z0) * (z + z0))) * frac1V z z0 / (zppV z z0 ^ 4)
    - (3 - 4 * ((z - z0) * (z - z0))) * frac2V z z0 / (zmmV z z0 ^ 4)) / 64 * (r * r * r * r)

/-- The Taylor-series small-`r` branch of the diametric solution (`r < 5e-2`),
elementary functions only:
`br = -cos(phi)/4 * (term1 + 9 term2 + 25 term3)`,
`bphi = sin(phi)/4 * (term1 + 3 term2 + 5 term3)`, and the odd-order `bz`
series through `r^5`. -/
def unit_diametric_taylor (r phi z z0 : ℝ) : Vec3 :=
  ⟨-Real.cos phi / 4 * (taylorTerm1 z z0 + 9 * taylorTerm2 r z z0 + 25 * taylorTerm3 r z z0),
   Real.sin phi / 4 * (taylorTerm1 z z0 + 3 * taylorTerm2 r z z0 + 5 * taylorTerm3 r z z0),
   -Real.cos phi / 4 *
      (r * (1 / zppV z z0 / Real.sqrt (zppV z z0) - 1 / zmmV z z0 / Real.sqrt (zmmV z z0))
       + 3 / 8 * (r * r * r) *
           ((1 - 4 * ((z + z0) * (z + z0))) / (zppV z z0 ^ 3) / Real.sqrt (zppV z z0)
            - (1 - 4 * ((z - z0) * (z - z0))) / (zmmV z z0 ^ 3) / Real.sqrt (zmmV z z0))
       + 15 / 64 * (r * r * r * r * r) *
           ((1 - 12 * ((z + z0) * (z + z0)) + 8 * ((z + z0) * (z + z0)) ^ 2)
              / (zppV z z0 ^ 5) / Real.sqrt (zppV z z0)
            - (1 - 12 * ((z - z0) * (z - z0)) + 8 * ((z - z0) * (z - z0)) ^ 2)
              / (zmmV z z0 ^ 5) / Real.sqrt (zmmV z z0)))⟩

/-- The `r == r0` special case in the general diametric branch: `argc` and
`1/rm` are replaced by the sentinel pair `(1e16, 0)` when `r - 1 == 0`. -/
def diamArgc (r : ℝ) : ℝ := if r - 1 = 0 then 1e16 else -4 * r / ((r - 1) * (r - 1))

/-- The `1/rm` factor with the on-edge sentinel `0`. -/
def diamOneOverRm (r : ℝ) : ℝ := if r - 1 = 0 then 0 else 1 / (r - 1)

/-- The general branch of `unit_diametric_cyl_B_cyl`, given the five special
function values (two `ellipk`, two `ellipe`, two `cel`) already computed. -/
def unit_diametric_general (r phi z z0 ellkP ellkM elleP elleM ellpiP ellpiM : ℝ) : Vec3 :=
  ⟨-Real.cos phi / (4 * Real.pi * (r * r)) *
      (-(z - z0) * Real.sqrt ((z - z0) * (z - z0) + (r - 1) * (r - 1)) * elleM
        + (z + z0) * Real.sqrt ((z + z0) * (z + z0) + (r - 1) * (r - 1)) * elleP
        + (z - z0) / Real.sqrt ((z - z0) * (z - z0) + (r - 1) * (r - 1)) *
            (2 + (z - z0) * (z - z0)) * ellkM
        - (z + z0) / Real.sqrt ((z + z0) * (z + z0) + (r - 1) * (r - 1)) *
            (2 + (z + z0) * (z + z0)) * ellkP
        + ((z - z0) / Real.sqrt ((z - z0) * (z - z0) + (r - 1) * (r - 1)) * ellpiM
            - (z + z0) / Real.sqrt ((z + z0) * (z + z0) + (r - 1) * (r - 1)) * ellpiP)
          * (r + 1) * (r * r + 1) * diamOneOverRm r),
   Real.sin phi / (4 * Real.pi * (r * r)) *
      ((z - z0) * Real.sqrt ((z - z0) * (z - z0) + (r - 1) * (r - 1)) * elleM
        - (z + z0) * Real.sqrt ((z + z0) * (z + z0) + (r - 1) * (r - 1)) * elleP
        - (z - z0) / Real.sqrt ((z - z0) * (z - z0) + (r - 1) * (r - 1)) *
            (2 + (z - z0) * (z - z0) + 2 * (r * r)) * ellkM
        + (z + z0) / Real.sqrt ((z + z0) * (z + z0) + (r - 1) * (r - 1)) *
            (2 + (z + z0) * (z + z0) + 2 * (r * r)) * ellkP
        + (z - z0) / Real.sqrt ((z - z0) * (z - z0) + (r - 1) * (r - 1)) *
            ((r + 1) * (r + 1)) * ellpiM
        - (z + z0) / Real.sqrt ((z + z0) * (z + z0) + (r - 1) * (r - 1)) *
            ((r + 1) * (r + 1)) * ellpiP),
   -Real.cos phi / (2 * Real.pi * r) *
      (Real.sqrt ((z - z0) * (z - z0) + (r - 1) * (r - 1)) * elleM
        - Real.sqrt ((z + z0) * (z + z0) + (r - 1) * (r - 1)) * elleP
        - (1 + (z - z0) * (z - z0) + r * r) /
            Real.sqrt ((z - z0) * (z - z0) + (r - 1) * (r - 1)) * ellkM
        + (1 + (z + z0) * (z + z0) + r * r) /
            Real.sqrt ((z + z0) * (z + z0) + (r - 1) * (r - 1)) * ellkP)⟩

/-- `unit_diametric_cyl_B_cyl(r, phi, z, z0)`: diametric unit-polarization
field; Taylor branch for `r < 5e-2`, otherwise the general branch through
`ellipk`/`ellipe` (external crate) and `cel`, each behind `?`. -/
def unit_diametric_cyl_B_cyl (E : EllipApi) (r phi z z0 : ℝ) : Outcome Vec3 :=
  if r < 5e-2 then .ok (unit_diametric_taylor r phi z z0)
  else
    Outcome.bind (E.ellipk (-4 * r / ((z + z0) * (z + z0) + (r - 1) * (r - 1)))) (fun ellkP =>
    Outcome.bind (E.ellipk (-4 * r / ((z - z0) * (z - z0) + (r - 1) * (r - 1)))) (fun ellkM =>
    Outcome.bind (E.ellipe (-4 * r / ((z + z0) * (z + z0) + (r - 1) * (r - 1)))) (fun elleP =>
    Outcome.bind (E.ellipe (-4 * r / ((z - z0) * (z - z0) + (r - 1) * (r - 1)))) (fun elleM =>
    Outcome.bind (cel (Real.sqrt (1 - (-4 * r / ((z + z0) * (z + z0) + (r - 1) * (r - 1)))))
        (1 - diamArgc r) 1 1) (fun ellpiP =>
    Outcome.bind (cel (Real.sqrt (1 - (-4 * r / ((z - z0) * (z - z0) + (r - 1) * (r - 1)))))
        (1 - diamArgc r) 1 1) (fun ellpiM =>
    .ok (unit_diametric_general r phi z z0 ellkP ellkM elleP elleM ellpiP ellpiM)))))))

/-- `cyl_B_cyl(r, phi, z, radius, height, pol_r, pol_z)`: normalizes by the
radius, returns the zero vector within `1e-15` relative tolerance of the rim,
then adds the axial and diametric contributions, each skipped when its
polarization component is exactly zero and unwrapped with `.expect(...)`
(a kernel failure therefore panics instead of propagating as `Err`). -/
def cyl_B_cyl (E : EllipApi) (r phi z radius height pol_r pol_z : ℝ) : Outcome Vec3 :=
  if is_close (r / radius) 1 1e-15 ∧ is_close |z / radius| (height / 2 / radius) 1e-15 then
    .ok 0
  else
    Outcome.bind
      (if pol_z = 0 then .ok 0 else
        Outcome.expectMsg "fn cyl_b_cyl: cannot compute axial B."
          (Outcome.map (fun b => pol_z • b)
            (unit_axial_cyl_B_cyl (r / radius) (z / radius) (height / 2 / radius))))
      (fun bAxial =>
    Outcome.bind
      (if pol_r = 0 then .ok 0 else
        Outcome.expectMsg "fn cyl_b_cyl: cannot compute diametric B."
          (Outcome.map (fun b => pol_r • b)
            (unit_diametric_cyl_B_cyl E (r / radius) phi (z / radius) (height / 2 / radius))))
      (fun bDiam => .ok (bAxial + bDiam)))

/-- `local_cyl_B(point, radius, height, pol)`: converts the point and the
polarization to cylindrical form, calls `cyl_B_cyl` (through `?`), converts the
result back to Cartesian, and — when `r <= radius && |z| <= height/2` — adds
`pol.x`/`pol.y` to the in-plane components (the `z` component stays `b_cyl.z`). -/
def local_cyl_B (E : EllipApi) (point : Vec3) (radius height : ℝ) (pol : Vec3) : Outcome Vec3 :=
  Outcome.bind
    (cyl_B_cyl E (cart2cyl point.x point.y).1
      ((cart2cyl point.x point.y).2 - (cart2cyl pol.x pol.y).2) point.z radius height
      (cart2cyl pol.x pol.y).1 pol.z)
    (fun b =>
      if (cart2cyl point.x point.y).1 ≤ radius ∧ |point.z| ≤ height / 2 then
        .ok ⟨(vec_cyl2cart b.x b.y (cart2cyl point.x point.y).2).1 + pol.x,
             (vec_cyl2cart b.x b.y (cart2cyl point.x point.y).2).2 + pol.y,
             b.z⟩
      else
        .ok ⟨(vec_cyl2cart b.x b.y (cart2cyl point.x point.y).2).1,
             (vec_cyl2cart b.x b.y (cart2cyl point.x point.y).2).2,
             b.z⟩)

/-- Sequentially unwrap a list of outcomes, as the `map(...unwrap()).collect()`
in `local_cyl_B_vec` does: the first non-`ok` element panics/propagates.  (The
`parallel` branch maps the same closure, so its value semantics coincide.) -/
def unwrapAll : List (Outcome Vec3) → Outcome (List Vec3)
  | [] => .ok []
  | o :: rest => Outcome.bind (Outcome.unwrapO o) (fun v => Outcome.map (v :: ·) (unwrapAll rest))

/-- `local_cyl_B_vec(points, radius, height, pol)`: maps `local_cyl_B` over the
points, `.unwrap()`ing each result, and wraps the collected vector in `Ok`. -/
def local_cyl_B_vec (E : EllipApi) (points : List Vec3) (radius height : ℝ) (pol : Vec3) :
    Outcome (List Vec3) :=
  unwrapAll (points.map (fun p => local_cyl_B E p radius height pol))

/-- `cyl_B(points, position, orientation, radius, height, pol)`: the
`compute_in_local!` macro — map the points into the local frame, evaluate
`local_cyl_B_vec` (through `?`), map the resulting vectors back to global. -/
def cyl_B (E : EllipApi) (points : List Vec3) (position : Vec3) (orientation : Quat)
    (radius height : ℝ) (pol : Vec3) : Outcome (List Vec3) :=
  Outcome.bind (local_cyl_B_vec E (local_points points position orientation) radius height pol)
    (fun vs => .ok (global_vectors vs orientation))

/-! ## `src/sources/cylinder.rs` -/

/-- The `CylinderMagnet` struct: pose, polarization and dimensions. -/
structure CylinderMagnet where
  position : Vec3
  orientation : Quat
  polarization : Vec3
  radius : ℝ
  height : ℝ

namespace CylinderMagnet

/-- `CylinderMagnet::new`: stores the five fields verbatim — there is no
validation of any kind (in particular no geometry check) and the return type
is the plain struct, not a `Result`. -/
def new (position : Vec3) (orientation : Quat) (polarization : Vec3)
    (radius height : ℝ) : CylinderMagnet :=
  ⟨position, orientation, polarization, radius, height⟩

/-- `Field::get_B` for `CylinderMagnet`: delegate to `cyl_B` with the stored
pose, dimensions and polarization. -/
def get_B (E : EllipApi) (m : CylinderMagnet) (points : List Vec3) : Outcome (List Vec3) :=
  cyl_B E points m.position m.orientation m.radius m.height m.polarization

/-! `impl_transform!` (shallow transform for leaf objects,
`src/geometry/transform.rs`). -/

/-- Leaf `set_position`. -/
def set_position (m : CylinderMagnet) (p : Vec3) : CylinderMagnet :=
  ⟨p, m.orientation, m.polarization, m.radius, m.height⟩

/-- Leaf `set_orientation`. -/
def set_orientation (m : CylinderMagnet) (q : Quat) : CylinderMagnet :=
  ⟨m.position, q, m.polarization, m.radius, m.height⟩

/-- Leaf `translate`: `position = translation.transform_point(&position)`. -/
def translate (m : CylinderMagnet) (t : Vec3) : CylinderMagnet :=
  ⟨m.position + t, m.orientation, m.polarization, m.radius, m.height⟩

/-- Leaf `rotate`: `orientation = rotation * orientation`. -/
def rotate (m : CylinderMagnet) (ρ : Quat) : CylinderMagnet :=
  ⟨m.position, ρ * m.orientation, m.polarization, m.radius, m.height⟩

/-- Modelled from the spec: the leaf `rotate_anchor` implementation is not in
the sources (the `Transform` trait file predates it; only the collection-side
callers appear), so it follows §4.4's `rotate_about(rotation, anchor)` for a
leaf — rotate the position about the anchor and compose the orientation —
which is also the update the collection applies to its own pose. -/
def rotate_anchor (m : CylinderMagnet) (ρ : Quat) (anchor : Vec3) : CylinderMagnet :=
  ⟨rotAct ρ (m.position - anchor) + anchor, ρ * m.orientation, m.polarization,
   m.radius, m.height⟩

end CylinderMagnet

/-! ## `src/sources/source.rs` -/

/-- `SourceCollection<CylinderMagnet>`: the single-type collection, with its
own pose and exclusively owned children. -/
structure SourceCollection where
  position : Vec3
  orientation : Quat
  children : List CylinderMagnet

/-- Sequential `collect::<Result<Vec<_>, _>>()`: the first non-`ok` child
outcome short-circuits the collection. -/
def collectResults {α : Type} : List (Outcome α) → Outcome (List α)
  | [] => .ok []
  | o :: rest => Outcome.bind o (fun a => Outcome.map (a :: ·) (collectResults rest))

/-- The per-point reduction of `impl_field_collection!`:
`(0..points.len()).map(|i| b_fields.iter().map(|v| v[i]).sum())`.  Indexing is
total here (`getD i 0`); the callers guarantee every child vector has one
entry per point, which the length hypotheses of the theorems make explicit. -/
def netField (bs : List (List Vec3)) (n : ℕ) : List Vec3 :=
  (List.range n).map (fun i => vsum (bs.map (fun b => b.getD i 0)))

namespace SourceCollection

/-- `Field::get_B` of `impl_field_collection!`: evaluate every child at the
full point list, collect (short-circuiting on failure), then reduce by
per-point vector summation.  The collection's own pose is not consulted. -/
def get_B (E : EllipApi) (col : SourceCollection) (points : List Vec3) :
    Outcome (List Vec3) :=
  Outcome.bind (collectResults (col.children.map (fun c => c.get_B E points)))
    (fun bs => .ok (netField bs points.length))

/-! `impl_transform_collection!` (deep transform). -/

/-- `set_position`: translate every child by `position - self.position`, then
store the new position. -/
def set_position (col : SourceCollection) (p : Vec3) : SourceCollection :=
  ⟨p, col.orientation, col.children.map (fun c => c.translate (p - col.position))⟩

/-- `set_orientation`: rotate every child by `orientation * old.inverse()`
about the collection's position, then store the new orientation. -/
def set_orientation (col : SourceCollection) (q : Quat) : SourceCollection :=
  ⟨col.position, q,
   col.children.map (fun c => c.rotate_anchor (q * star col.orientation) col.position)⟩

/-- `translate`: translate every child and the collection's own position. -/
def translate (col : SourceCollection) (t : Vec3) : SourceCollection :=
  ⟨col.position + t, col.orientation, col.children.map (fun c => c.translate t)⟩

/-- `rotate`: rotate every child about the collection's position; compose the
collection's orientation (its position is unchanged). -/
def rotate (col : SourceCollection) (ρ : Quat) : SourceCollection :=
  ⟨col.position, ρ * col.orientation,
   col.children.map (fun c => c.rotate_anchor ρ col.position)⟩

/-- `rotate_anchor`: rotate every child about `anchor`; rotate the
collection's own position about `anchor` and compose its orientation. -/
def rotate_anchor (col : SourceCollection) (ρ : Quat) (anchor : Vec3) : SourceCollection :=
  ⟨rotAct ρ (col.position - anchor) + anchor, ρ * col.orientation,
   col.children.map (fun c => c.rotate_anchor ρ anchor)⟩

end SourceCollection

/-- `MultiSourceCollection`: children are `Vec<Box<dyn Source>>`; for field
evaluation a trait object is exactly its `get_B` behavior, a function from
point lists to an outcome. -/
structure MultiSourceCollection where
  position : Vec3
  orientation : Quat
  children : List (List Vec3 → Outcome (List Vec3))

/-- `Field::get_B` of `impl_field_collection!` for `MultiSourceCollection`:
textually the same macro body as for `SourceCollection`. -/
def MultiSourceCollection.get_B (col : MultiSourceCollection) (points : List Vec3) :
    Outcome (List Vec3) :=
  Outcome.bind (collectResults (col.children.map (fun f => f points)))
    (fun bs => .ok (netField bs points.length))

/-- A child's pose relative to the collection frame, position part:
`orientation⁻¹ · (child.position − collection.position)` (the inverse of a
unit quaternion being its conjugate). -/
def relPos (col : SourceCollection) (m : CylinderMagnet) : Vec3 :=
  rotAct (star col.orientation) (m.position - col.position)

/-- A child's pose relative to the collection frame, orientation part:
`orientation⁻¹ · child.orientation`. -/
def relOrient (col : SourceCollection) (m : CylinderMagnet) : Quat :=
  star col.orientation * m.orientation

/-! ## Concrete fixtures used in witnesses and counterexamples -/

/-- A cylinder magnet of radius 1 and height 2 at the origin with identity
orientation and purely axial polarization `(0, 0, 1)`. -/
def centerMagnet : CylinderMagnet := CylinderMagnet.new 0 1 ⟨0, 0, 1⟩ 1 2

/-- A collection at the origin holding `centerMagnet`. -/
def colAtOrigin : SourceCollection := ⟨0, 1, [centerMagnet]⟩

/-- A collection with the same single child but a different pose
(position `(0, 0, 5)`). -/
def colShifted : SourceCollection := ⟨⟨0, 0, 5⟩, 1, [centerMagnet]⟩

/-! ## Basic lemmas about the embedding -/

namespace Outcome

@[simp] theorem bind_ok {α β : Type} (a : α) (f : α → Outcome β) :
    bind (ok a) f = f a := rfl

@[simp] theorem bind_err {α β : Type} (e : String) (f : α → Outcome β) :
    bind (err e) f = err e := rfl

@[simp] theorem bind_panicked {α β : Type} (m : String) (f : α → Outcome β) :
    bind (panicked m) f = panicked m := rfl

@[simp] theorem map_ok {α β : Type} (f : α → β) (a : α) :
    map f (ok a) = ok (f a) := rfl

@[simp] theorem map_err {α β : Type} (f : α → β) (e : String) :
    map f (err e : Outcome α) = err e := rfl

@[simp] theorem map_panicked {α β : Type} (f : α → β) (m : String) :
    map f (panicked m : Outcome α) = panicked m := rfl

@[simp] theorem expectMsg_panicked {α : Type} (msg m : String) :
    expectMsg msg (panicked m : Outcome α) = panicked m := rfl

@[simp] theorem expectMsg_ok {α : Type} (msg : String) (a : α) :
    expectMsg msg (ok a) = ok a := rfl

@[simp] theorem expectMsg_err {α : Type} (msg e : String) :
    expectMsg msg (err e : Outcome α) = panicked msg := rfl

@[simp] theorem unwrapO_ok {α : Type} (a : α) : unwrapO (ok a) = ok a := rfl

end Outcome

namespace Vec3

@[simp] theorem zero_x : (0 : Vec3).x = 0 := rfl

@[simp] theorem zero_y : (0 : Vec3).y = 0 := rfl

@[simp] theorem zero_z : (0 : Vec3).z = 0 := rfl

@[simp] theorem add_x (a b : Vec3) : (a + b).x = a.x + b.x := rfl

@[simp] theorem add_y (a b : Vec3) : (a + b).y = a.y + b.y := rfl

@[simp] theorem add_z (a b : Vec3) : (a + b).z = a.z + b.z := rfl

@[simp] theorem sub_x (a b : Vec3) : (a - b).x = a.x - b.x := rfl

@[simp] theorem sub_y (a b : Vec3) : (a - b).y = a.y - b.y := rfl

@[simp] theorem sub_z (a b : Vec3) : (a - b).z = a.z - b.z := rfl

@[simp] theorem smul_x (r : ℝ) (a : Vec3) : (r • a).x = r * a.x := rfl

@[simp] theorem smul_y (r : ℝ) (a : Vec3) : (r • a).y = r * a.y := rfl

@[simp] theorem smul_z (r : ℝ) (a : Vec3) : (r • a).z = r * a.z := rfl

@[simp] theorem add_zero (a : Vec3) : a + 0 = a := by ext <;> simp

@[simp] theorem zero_add (a : Vec3) : 0 + a = a := by ext <;> simp

@[simp] theorem sub_zero (a : Vec3) : a - 0 = a := by ext <;> simp

@[simp] theorem sub_self (a : Vec3) : a - a = 0 := by ext <;> simp

theorem add_sub_add_right (a b t : Vec3) : (a + t) - (b + t) = a - b := by
  ext <;> dsimp <;> ring

end Vec3

@[simp] theorem vsum_nil : vsum [] = 0 := rfl

@[simp] theorem vsum_cons (a : Vec3) (l : List Vec3) : vsum (a :: l) = a + vsum l := rfl

@[simp] theorem vecOf_toQ (v : Vec3) : vecOf (toQ v) = v := rfl

theorem toQ_vecOf (q : Quat) (h : q.re = 0) : toQ (vecOf q) = q := by
  apply Quaternion.ext <;> simp [toQ, vecOf, h]

theorem re_rot_zero (q : Quat) (v : Vec3) : (q * toQ v * star q).re = 0 := by
  simp only [toQ, Quaternion.mul_re, Quaternion.star_re, Quaternion.star_imI,
    Quaternion.star_imJ, Quaternion.star_imK, Quaternion.mul_imI, Quaternion.mul_imJ,
    Quaternion.mul_imK]
  ring

@[simp] theorem rotAct_one (v : Vec3) : rotAct 1 v = v := by
  simp [rotAct]

theorem rotAct_rotAct (p q : Quat) (v : Vec3) :
    rotAct p (rotAct q v) = rotAct (p * q) v := by
  simp only [rotAct]
  rw [toQ_vecOf _ (re_rot_zero q v), star_mul]
  congr 1
  simp only [mul_assoc]

theorem rotAct_sub (q : Quat) (u v : Vec3) :
    rotAct q u - rotAct q v = rotAct q (u - v) := by
  have hq : toQ (u - v) = toQ u - toQ v := by
    apply Quaternion.ext <;> simp [toQ]
  simp only [rotAct, hq, mul_sub, sub_mul]
  ext <;> simp [vecOf]

/-! ## Concrete evaluations of `cel`

`cel(1, p, c, s)` stops before the first loop iteration (`|g - k| = 0`), so
its value is the closed form at `celInit`. -/

theorem celInit_one_one_one_one : celInit 1 1 1 1 = ⟨1, 2, 4, 2, 2, 1, 1, 1⟩ := by
  simp only [celInit, celSetup, CelSt.mk.injEq]
  norm_num

theorem cel_one_one_one_one : cel 1 1 1 1 = .ok (Real.pi / 2) := by
  have h0 : celDone (celStep^[0] (celInit 1 1 1 1)) := by
    rw [Function.iterate_zero_apply, celInit_one_one_one_one]
    simp only [celDone, ERRTOL]
    norm_num
  have hex : ∃ n, celDone (celStep^[n] (celInit 1 1 1 1)) := ⟨0, h0⟩
  have hfind : Nat.find hex = 0 := (Nat.find_eq_zero hex).mpr h0
  rw [cel, if_neg one_ne_zero, dif_pos hex, hfind, Function.iterate_zero_apply,
    celInit_one_one_one_one]
  simp only [celResult, Outcome.ok.injEq]
  norm_num

theorem celInit_one_one_one_negone : celInit 1 1 1 (-1) = ⟨1, 0, 0, 2, 2, 1, 1, 1⟩ := by
  simp only [celInit, celSetup, CelSt.mk.injEq]
  norm_num

theorem cel_one_one_one_negone : cel 1 1 1 (-1) = .ok 0 := by
  have h0 : celDone (celStep^[0] (celInit 1 1 1 (-1))) := by
    rw [Function.iterate_zero_apply, celInit_one_one_one_negone]
    simp only [celDone, ERRTOL]
    norm_num
  have hex : ∃ n, celDone (celStep^[n] (celInit 1 1 1 (-1))) := ⟨0, h0⟩
  have hfind : Nat.find hex = 0 := (Nat.find_eq_zero hex).mpr h0
  rw [cel, if_neg one_ne_zero, dif_pos hex, hfind, Function.iterate_zero_apply,
    celInit_one_one_one_negone]
  simp only [celResult, Outcome.ok.injEq]
  norm_num

/-- Claim C7 (counterexample): at `kc = 1, p = 0, c = 1, s = 1` — a `p = 0`
input the claim says is rejected with `InvalidShapeParameter` — `cel` takes
the non-positive-`p` branch and returns `Ok 0`; no shape-parameter check or
error exists in the function. -/
theorem C7_counterexample : cel 1 0 1 1 = .ok 0 := by
  have hinit : celInit 1 0 1 1 = ⟨1, 0, 0, 2, 2, 1, 0, 1⟩ := by
    simp only [celInit, celSetup, CelSt.mk.injEq]
    norm_num
  have h0 : celDone (celStep^[0] (celInit 1 0 1 1)) := by
    rw [Function.iterate_zero_apply, hinit]
    simp only [celDone, ERRTOL]
    norm_num
  have hex : ∃ n, celDone (celStep^[n] (celInit 1 0 1 1)) := ⟨0, h0⟩
  have hfind : Nat.find hex = 0 := (Nat.find_eq_zero hex).mpr h0
  rw [cel, if_neg one_ne_zero, dif_pos hex, hfind, Function.iterate_zero_apply, hinit]
  simp only [celResult, Outcome.ok.injEq]
  norm_num

/-- Claim C7 (amended): `cel(kc, p, c, s)` returns an `Err` — necessarily the
invalid-modulus error — exactly when `kc = 0`.  There is no
`InvalidShapeParameter`: `p = 0` takes the non-positive-`p` branch and is not
rejected, and for `kc ≠ 0` no error of any kind is returned. -/
theorem C7_amended (kc p c s : ℝ) :
    (∃ e, cel kc p c s = .err e) ↔ kc = 0 := by
  constructor
  · rintro ⟨e, he⟩
    by_contra hk
    rw [cel, if_neg hk] at he
    split at he
    · exact Outcome.noConfusion he
    · exact Outcome.noConfusion he
  · intro hk
    exact ⟨"fn cel: kc cannot be zero.", by rw [cel, if_pos hk]⟩

/-- Claim C10: `cel` depends on the modulus complement only through its
absolute value: for `kc ≠ 0`, `cel(kc, p, c, s) = cel(-kc, p, c, s)` — the
branch setup uses `kc * kc` only and the loop starts from `kc.abs()`. -/
theorem C10_cel_even (kc p c s : ℝ) (h : kc ≠ 0) :
    cel kc p c s = cel (-kc) p c s := by
  have hsetup : celSetup (-kc) p c s = celSetup kc p c s := by
    simp only [celSetup, neg_mul_neg]
  have hinit : celInit (-kc) p c s = celInit kc p c s := by
    simp only [celInit, hsetup, abs_neg]
  rw [cel, cel, if_neg h, if_neg (neg_ne_zero.mpr h), hinit]

/-- Claim C10 (witness): instance at `kc = 1, p = 1, c = 1, s = 1`. -/
theorem C10_cel_even_witness : cel 1 1 1 1 = cel (-1) 1 1 1 :=
  C10_cel_even 1 1 1 1 one_ne_zero

/-- Claim C1: for a cylinder magnet with positive radius and height, any
observation point within `1e-15` relative tolerance of the rim in normalized
coordinates (`r/radius ≈ 1` and `|z/radius| ≈ (height/2)/radius`) makes
`cyl_B_cyl` return `Ok` of the zero vector, for any polarization and any
implementation of the external elliptic integrals. -/
theorem C1_rim_zero (E : EllipApi) (r phi z radius height pol_r pol_z : ℝ)
    (hrad : 0 < radius) (hh : 0 < height)
    (h1 : is_close (r / radius) 1 1e-15)
    (h2 : is_close |z / radius| (height / 2 / radius) 1e-15) :
    cyl_B_cyl E r phi z radius height pol_r pol_z = .ok 0 := by
  rw [cyl_B_cyl, if_pos ⟨h1, h2⟩]

/-- Claim C1 (witness): the exact rim of the magnet with radius 2 and
height 4 — observation point with cylindrical radius `2` and `z = -2`. -/
theorem C1_rim_zero_witness :
    cyl_B_cyl someEllip 2 0.7 (-2) 2 4 3 5 = .ok 0 := by
  apply C1_rim_zero someEllip 2 0.7 (-2) 2 4 3 5
  · norm_num
  · norm_num
  · simp only [is_close]
    norm_num
  · simp only [is_close]
    norm_num

/-! ## Termination of `cel`'s loop

The loop-relevant part of the state is the pair `(g, k)`: by the invariant
below, one iteration maps it to `(g + k, 2√(kg))` — a scaled
arithmetic-geometric-mean step — and the loop stops when the relative gap
`(g - k)/g` falls below `ERRTOL`.  After the first iteration `k ≤ g` holds,
and the relative gap then decreases at least quadratically, so the guard fails
after finitely many iterations for every `kc ≠ 0`. -/

/-- Loop invariant connecting the auxiliary state fields to the `(g, k)`
pair. -/
def celInv (st : CelSt) : Prop :=
  0 < st.k ∧ 0 < st.g ∧ st.em = st.g + st.k ∧ st.kk = st.k * st.g

theorem celInv_init (kc p c s : ℝ) (h : kc ≠ 0) : celInv (celInit kc p c s) := by
  refine ⟨abs_pos.mpr h, one_pos, ?_, ?_⟩
  · show |kc| + 1 = 1 + |kc|
    ring
  · show |kc| = |kc| * 1
    ring

theorem celInv_step (st : CelSt) (h : celInv st) : celInv (celStep st) := by
  obtain ⟨hk, hg, hem, hkk⟩ := h
  refine ⟨?_, ?_, ?_, rfl⟩
  · show 0 < 2 * Real.sqrt st.kk
    have hkkpos : 0 < st.kk := hkk ▸ mul_pos hk hg
    positivity
  · show 0 < st.em
    rw [hem]
    exact add_pos hg hk
  · show 2 * Real.sqrt st.kk + st.em = st.em + 2 * Real.sqrt st.kk
    ring

theorem celStep_g_eq (st : CelSt) (h : celInv st) : (celStep st).g = st.g + st.k := by
  rw [show (celStep st).g = st.em from rfl, h.2.2.1]

theorem celStep_k_eq (st : CelSt) (h : celInv st) :
    (celStep st).k = 2 * Real.sqrt (st.k * st.g) := by
  rw [show (celStep st).k = 2 * Real.sqrt st.kk from rfl, h.2.2.2]

theorem celStep_k_le_g (st : CelSt) (h : celInv st) : (celStep st).k ≤ (celStep st).g := by
  rw [celStep_k_eq st h, celStep_g_eq st h]
  obtain ⟨hk, hg, -, -⟩ := h
  have hmul : Real.sqrt (st.k * st.g) = Real.sqrt st.k * Real.sqrt st.g :=
    Real.sqrt_mul hk.le _
  have h1 : Real.sqrt st.k ^ 2 = st.k := Real.sq_sqrt hk.le
  have h2 : Real.sqrt st.g ^ 2 = st.g := Real.sq_sqrt hg.le
  nlinarith [sq_nonneg (Real.sqrt st.g - Real.sqrt st.k)]

theorem celStep_contract (st : CelSt) (h : celInv st) :
    ((celStep st).g - (celStep st).k) * st.g ^ 2
      ≤ (st.g - st.k) ^ 2 * (celStep st).g := by
  rw [celStep_k_eq st h, celStep_g_eq st h]
  obtain ⟨hk, hg, -, -⟩ := h
  have hmul : Real.sqrt (st.k * st.g) = Real.sqrt st.k * Real.sqrt st.g :=
    Real.sqrt_mul hk.le _
  have h1 : Real.sqrt st.k ^ 2 = st.k := Real.sq_sqrt hk.le
  have h2 : Real.sqrt st.g ^ 2 = st.g := Real.sq_sqrt hg.le
  set u := Real.sqrt st.k with hu
  set v := Real.sqrt st.g with hv
  have hu0 : 0 ≤ u := Real.sqrt_nonneg _
  have hv0 : 0 ≤ v := Real.sqrt_nonneg _
  rw [hmul, ← h1, ← h2]
  have hkey : 0 ≤ (v - u) ^ 2 * (2 * u ^ 2 * v ^ 2 + 2 * u * v ^ 3 + 2 * u ^ 3 * v + u ^ 4) := by
    apply mul_nonneg (sq_nonneg _)
    have h3 : 0 ≤ u * v := mul_nonneg hu0 hv0
    nlinarith [sq_nonneg u, sq_nonneg v, sq_nonneg (u * v), sq_nonneg (u ^ 2), h3]
  nlinarith [hkey]

theorem celInv_iterate (st0 : CelSt) (h0 : celInv st0) (n : ℕ) :
    celInv (celStep^[n] st0) := by
  induction n with
  | zero => simpa using h0
  | succ n ih =>
    rw [Function.iterate_succ_apply']
    exact celInv_step _ ih

theorem celIterate_k_le_g (st0 : CelSt) (h0 : celInv st0) (m : ℕ) :
    (celStep^[1 + m] st0).k ≤ (celStep^[1 + m] st0).g := by
  rw [add_comm, Function.iterate_succ_apply']
  exact celStep_k_le_g _ (celInv_iterate st0 h0 m)

theorem celGap_le (st0 : CelSt) (h0 : celInv st0) (m : ℕ) :
    (celStep^[1 + m] st0).g - (celStep^[1 + m] st0).k
      ≤ (((celStep^[1] st0).g - (celStep^[1] st0).k) / (celStep^[1] st0).g) ^ (m + 1)
        * (celStep^[1 + m] st0).g := by
  have hg1 : 0 < (celStep^[1] st0).g := (celInv_iterate st0 h0 1).2.1
  have hk1 : 0 < (celStep^[1] st0).k := (celInv_iterate st0 h0 1).1
  have hρ0 : 0 ≤ ((celStep^[1] st0).g - (celStep^[1] st0).k) / (celStep^[1] st0).g := by
    have h01 : (celStep^[1] st0).k ≤ (celStep^[1] st0).g := by
      simpa using celIterate_k_le_g st0 h0 0
    exact div_nonneg (sub_nonneg.mpr h01) hg1.le
  have hρ1 : ((celStep^[1] st0).g - (celStep^[1] st0).k) / (celStep^[1] st0).g ≤ 1 := by
    rw [div_le_one hg1]
    linarith
  induction m with
  | zero =>
    rw [pow_one, div_mul_cancel₀]
    exact hg1.ne'
  | succ m ih =>
    have hInvm : celInv (celStep^[1 + m] st0) := celInv_iterate st0 h0 (1 + m)
    have hgm : 0 < (celStep^[1 + m] st0).g := hInvm.2.1
    have hgm1 : 0 < (celStep^[1 + (m + 1)] st0).g := (celInv_iterate st0 h0 (1 + (m + 1))).2.1
    have hstep : celStep^[1 + (m + 1)] st0 = celStep (celStep^[1 + m] st0) := by
      rw [show 1 + (m + 1) = (1 + m) + 1 from by ring, Function.iterate_succ_apply']
    have hcontr := celStep_contract (celStep^[1 + m] st0) hInvm
    rw [← hstep] at hcontr
    have hδm : 0 ≤ (celStep^[1 + m] st0).g - (celStep^[1 + m] st0).k :=
      sub_nonneg.mpr (celIterate_k_le_g st0 h0 m)
    -- square the induction hypothesis
    have hsq : ((celStep^[1 + m] st0).g - (celStep^[1 + m] st0).k) ^ 2
        ≤ ((((celStep^[1] st0).g - (celStep^[1] st0).k) / (celStep^[1] st0).g) ^ (m + 1)) ^ 2
          * (celStep^[1 + m] st0).g ^ 2 := by
      calc ((celStep^[1 + m] st0).g - (celStep^[1 + m] st0).k) ^ 2
          ≤ ((((celStep^[1] st0).g - (celStep^[1] st0).k) / (celStep^[1] st0).g) ^ (m + 1)
              * (celStep^[1 + m] st0).g) ^ 2 := pow_le_pow_left₀ hδm ih 2
        _ = ((((celStep^[1] st0).g - (celStep^[1] st0).k) / (celStep^[1] st0).g) ^ (m + 1)) ^ 2
              * (celStep^[1 + m] st0).g ^ 2 := by ring
    have hchain : ((celStep^[1 + (m + 1)] st0).g - (celStep^[1 + (m + 1)] st0).k)
        * (celStep^[1 + m] st0).g ^ 2
        ≤ ((((celStep^[1] st0).g - (celStep^[1] st0).k) / (celStep^[1] st0).g) ^ (m + 1)) ^ 2
          * (celStep^[1 + (m + 1)] st0).g * (celStep^[1 + m] st0).g ^ 2 := by
      refine hcontr.trans ?_
      have := mul_le_mul_of_nonneg_right hsq hgm1.le
      nlinarith [this]
    have hg2 : (0 : ℝ) < (celStep^[1 + m] st0).g ^ 2 := by positivity
    have hdiv : (celStep^[1 + (m + 1)] st0).g - (celStep^[1 + (m + 1)] st0).k
        ≤ ((((celStep^[1] st0).g - (celStep^[1] st0).k) / (celStep^[1] st0).g) ^ (m + 1)) ^ 2
          * (celStep^[1 + (m + 1)] st0).g :=
      le_of_mul_le_mul_right (by nlinarith [hchain]) hg2
    refine hdiv.trans ?_
    have hexp : ((((celStep^[1] st0).g - (celStep^[1] st0).k) / (celStep^[1] st0).g) ^ (m + 1)) ^ 2
        = (((celStep^[1] st0).g - (celStep^[1] st0).k) / (celStep^[1] st0).g) ^ ((m + 1) * 2) :=
      (pow_mul _ (m + 1) 2).symm
    rw [hexp]
    have hpow : (((celStep^[1] st0).g - (celStep^[1] st0).k) / (celStep^[1] st0).g) ^ ((m + 1) * 2)
        ≤ (((celStep^[1] st0).g - (celStep^[1] st0).k) / (celStep^[1] st0).g) ^ (m + 1 + 1) :=
      pow_le_pow_of_le_one hρ0 hρ1 (by omega)
    exact mul_le_mul_of_nonneg_right hpow hgm1.le

theorem cel_loop_terminates (st0 : CelSt) (h0 : celInv st0) :
    ∃ n, celDone (celStep^[n] st0) := by
  have hg1 : 0 < (celStep^[1] st0).g := (celInv_iterate st0 h0 1).2.1
  have hk1 : 0 < (celStep^[1] st0).k := (celInv_iterate st0 h0 1).1
  set ρ : ℝ := ((celStep^[1] st0).g - (celStep^[1] st0).k) / (celStep^[1] st0).g with hρdef
  have hρ0 : 0 ≤ ρ := by
    have h01 : (celStep^[1] st0).k ≤ (celStep^[1] st0).g := by
      simpa using celIterate_k_le_g st0 h0 0
    exact div_nonneg (sub_nonneg.mpr h01) hg1.le
  have hρlt : ρ < 1 := by
    rw [hρdef, div_lt_one hg1]
    linarith
  obtain ⟨n, hn⟩ := exists_pow_lt_of_lt_one (show (0 : ℝ) < ERRTOL from by norm_num [ERRTOL]) hρlt
  refine ⟨1 + n, ?_⟩
  have hInv : celInv (celStep^[1 + n] st0) := celInv_iterate st0 h0 (1 + n)
  have hgn : 0 < (celStep^[1 + n] st0).g := hInv.2.1
  have hle : (celStep^[1 + n] st0).k ≤ (celStep^[1 + n] st0).g := celIterate_k_le_g st0 h0 n
  have hgap := celGap_le st0 h0 n
  have hpow : ρ ^ (n + 1) ≤ ρ ^ n := pow_le_pow_of_le_one hρ0 hρlt.le (by omega)
  have : (celStep^[1 + n] st0).g - (celStep^[1 + n] st0).k
      ≤ ERRTOL * (celStep^[1 + n] st0).g := by
    refine hgap.trans ?_
    have := mul_le_mul_of_nonneg_right (hpow.trans hn.le) hgn.le
    exact this
  show |(celStep^[1 + n] st0).g - (celStep^[1 + n] st0).k|
      ≤ (celStep^[1 + n] st0).g * ERRTOL
  rw [abs_of_nonneg (sub_nonneg.mpr hle)]
  linarith

/-- Claim C8 (counterexample): `cel` can return only the invalid-modulus error
(`kc = 0`); in particular no input, however slowly converging, ever produces a
`ConvergenceFailure` error — there is no iteration cap in the loop. -/
theorem C8_counterexample :
    ¬ ∃ kc p c s e, cel kc p c s = .err e ∧ e ≠ "fn cel: kc cannot be zero." := by
  rintro ⟨kc, p, c, s, e, he, hne⟩
  by_cases hk : kc = 0
  · rw [cel, if_pos hk] at he
    cases he
    exact hne rfl
  · rw [cel, if_neg hk] at he
    split at he
    · exact Outcome.noConfusion he
    · exact Outcome.noConfusion he

/-- Claim C8 (amended): for every valid input (`kc ≠ 0`) the iteration of
`cel` meets its tolerance after finitely many steps and the call returns `Ok`;
but the loop has no iteration cap and `cel` never returns a
`ConvergenceFailure` — its only error is the invalid-modulus one. -/
theorem C8_amended (kc p c s : ℝ) (h : kc ≠ 0) : ∃ r, cel kc p c s = .ok r := by
  have hex := cel_loop_terminates (celInit kc p c s) (celInv_init kc p c s h)
  exact ⟨_, by rw [cel, if_neg h, dif_pos hex]⟩

/-- Claim C8 (witness): the theorem applied at `kc = 1/2, p = 1, c = 1,
s = 1`. -/
theorem C8_amended_witness : ∃ r, cel (1 / 2) 1 1 1 = .ok r :=
  C8_amended (1 / 2) 1 1 1 (by norm_num)

/-! ## Concrete field evaluations -/

theorem cel_zero_err (p c s : ℝ) : cel 0 p c s = .err "fn cel: kc cannot be zero." := by
  rw [cel, if_pos rfl]

theorem atan2_zero_zero : atan2 0 0 = 0 := by
  have h : (⟨0, 0⟩ : ℂ) = 0 := by
    apply Complex.ext <;> simp
  rw [atan2, h, Complex.arg_zero]

theorem cart2cyl_zero : cart2cyl 0 0 = (0, 0) := by
  rw [cart2cyl, atan2_zero_zero]
  norm_num

/-- `unit_axial` evaluated at the centre of the normalized magnet with
`z0 = 1`: both moduli are `1`, so `cel` stops before its first iteration. -/
theorem unit_axial_center :
    unit_axial_cyl_B_cyl 0 0 1 = .ok ⟨0, 0, Real.sqrt 2 / 2⟩ := by
  rw [unit_axial_cyl_B_cyl]
  norm_num [Real.sqrt_one]
  rw [cel_one_one_one_negone, cel_one_one_one_one]
  simp only [Outcome.bind_ok, Outcome.ok.injEq, Vec3.mk.injEq]
  have h2 : Real.sqrt 2 ≠ 0 := by positivity
  have hπ : Real.pi ≠ 0 := Real.pi_ne_zero
  have hmul : Real.sqrt 2 * Real.sqrt 2 = 2 := Real.mul_self_sqrt (by norm_num)
  refine ⟨by norm_num, trivial, ?_⟩
  rw [div_eq_iff hπ]
  field_simp
  nlinarith [hmul, Real.pi_pos]

/-- `unit_axial` on the lower rim circle reached with inverted geometry
(`z0 = -1`): the `kp` modulus degenerates to `0` and `cel` fails. -/
theorem unit_axial_fail :
    unit_axial_cyl_B_cyl 1 1 (-1) = .err "fn cel: kc cannot be zero." := by
  rw [unit_axial_cyl_B_cyl]
  norm_num [Real.sqrt_zero]
  rw [cel_zero_err]
  rfl

theorem cyl_B_cyl_center (E : EllipApi) :
    cyl_B_cyl E 0 0 0 1 2 0 1 = .ok ⟨0, 0, Real.sqrt 2 / 2⟩ := by
  rw [cyl_B_cyl]
  rw [if_neg ?hrim]
  case hrim =>
    rintro ⟨h1, -⟩
    rw [is_close] at h1
    norm_num at h1
  rw [if_neg one_ne_zero, if_pos rfl]
  norm_num [unit_axial_center]
  ext <;> simp <;> norm_num

theorem local_cyl_B_center (E : EllipApi) :
    local_cyl_B E ⟨0, 0, 0⟩ 1 2 ⟨0, 0, 1⟩ = .ok ⟨0, 0, Real.sqrt 2 / 2⟩ := by
  rw [local_cyl_B]
  simp only [cart2cyl_zero]
  norm_num
  rw [cyl_B_cyl_center E]
  rw [Outcome.bind_ok]
  simp only [Outcome.ok.injEq, Vec3.mk.injEq, vec_cyl2cart]
  norm_num

theorem local_point_id (p : Vec3) : local_point p 0 1 = p := by
  simp [local_point, star_one]

theorem centerMagnet_get_B (E : EllipApi) :
    centerMagnet.get_B E [⟨0, 0, 0⟩] = .ok [⟨0, 0, Real.sqrt 2 / 2⟩] := by
  rw [CylinderMagnet.get_B, cyl_B]
  have hpts : local_points [⟨0, 0, 0⟩] centerMagnet.position centerMagnet.orientation
      = [⟨0, 0, 0⟩] := by
    simp [local_points, centerMagnet, CylinderMagnet.new, local_point_id]
  rw [hpts]
  show Outcome.bind (local_cyl_B_vec E [⟨0, 0, 0⟩] 1 2 ⟨0, 0, 1⟩) _ = _
  rw [local_cyl_B_vec]
  simp only [List.map_cons, List.map_nil, unwrapAll, local_cyl_B_center E]
  simp [global_vectors, global_vector, centerMagnet, CylinderMagnet.new]

/-- Claim C2 (counterexample): at the finite input `r = 1, phi = 0, z = 1,
radius = 1, height = -2, pol_r = 0, pol_z = 1` the rim check does not fire,
the axial kernel call receives modulus `0` and fails, and `cyl_B_cyl` panics
with the `expect` message instead of returning the kernel failure as an error
result. -/
theorem C2_counterexample :
    cyl_B_cyl someEllip 1 0 1 1 (-2) 0 1
      = .panicked "fn cyl_b_cyl: cannot compute axial B." := by
  rw [cyl_B_cyl]
  rw [if_neg ?hrim]
  case hrim =>
    rintro ⟨-, h2⟩
    rw [is_close] at h2
    norm_num at h2
  rw [if_neg one_ne_zero]
  norm_num [unit_axial_fail]

/-- Claim C2 (amended): on every input where the axial kernel computation
fails (and is reached: point not within rim tolerance, `pol_z ≠ 0`),
`cyl_B_cyl` does not return the failure to the caller as an error result — it
panics with the `expect` message `fn cyl_b_cyl: cannot compute axial B.`
(likewise the diametric side and `local_cyl_B_vec`'s `unwrap` convert failures
into panics; only `local_cyl_B` forwards `cyl_B_cyl`'s outcome unchanged). -/
theorem C2_amended (E : EllipApi) (r phi z radius height pol_r pol_z : ℝ)
    (hrim : ¬(is_close (r / radius) 1 1e-15 ∧
        is_close |z / radius| (height / 2 / radius) 1e-15))
    (hpz : pol_z ≠ 0)
    (hfail : ∃ e, unit_axial_cyl_B_cyl (r / radius) (z / radius) (height / 2 / radius)
        = .err e) :
    cyl_B_cyl E r phi z radius height pol_r pol_z
      = .panicked "fn cyl_b_cyl: cannot compute axial B." := by
  obtain ⟨e, he⟩ := hfail
  rw [cyl_B_cyl, if_neg hrim, if_neg hpz, he]
  rfl

/-- Claim C2 (witness): the amended theorem applied at `r = 1, phi = 0.3,
z = 1, radius = 1, height = -2, pol_r = 0, pol_z = 2`. -/
theorem C2_amended_witness :
    cyl_B_cyl someEllip 1 0.3 1 1 (-2) 0 2
      = .panicked "fn cyl_b_cyl: cannot compute axial B." := by
  apply C2_amended someEllip 1 0.3 1 1 (-2) 0 2
  · rintro ⟨-, h2⟩
    rw [is_close] at h2
    norm_num at h2
  · norm_num
  · refine ⟨"fn cel: kc cannot be zero.", ?_⟩
    have h : unit_axial_cyl_B_cyl (1 / 1) (1 / 1) (-2 / 2 / 1)
        = unit_axial_cyl_B_cyl 1 1 (-1) := by norm_num
    rw [h, unit_axial_fail]

/-- Claim C3 (counterexample): at the interior point `(0,0,0)` of the magnet
with radius 1, height 2 and polarization `(0,0,1)`, the closed-form solution
gives the demagnetizing field `(0, 0, √2/2)`, and `local_cyl_B` returns
exactly that vector — not the vector plus the full polarization: only the
in-plane components of `pol` are added, never `pol.z`. -/
theorem C3_counterexample :
    cyl_B_cyl someEllip 0 0 0 1 2 0 1 = .ok ⟨0, 0, Real.sqrt 2 / 2⟩ ∧
    local_cyl_B someEllip ⟨0, 0, 0⟩ 1 2 ⟨0, 0, 1⟩ = .ok ⟨0, 0, Real.sqrt 2 / 2⟩ ∧
    (⟨0, 0, Real.sqrt 2 / 2⟩ : Vec3) ≠ ⟨0, 0, Real.sqrt 2 / 2⟩ + ⟨0, 0, 1⟩ := by
  refine ⟨cyl_B_cyl_center someEllip, local_cyl_B_center someEllip, ?_⟩
  intro h
  rw [Vec3.mk.injEq] at h
  have := h.2.2
  norm_num at this

/-- Claim C3 (amended): for a point inside the magnet volume
(`r ≤ radius` and `|z| ≤ height/2`) on which the closed-form cylindrical
solution returns `b`, `local_cyl_B` returns the Cartesian conversion of `b`
with only the in-plane polarization components added:
`(bx + pol.x, by + pol.y, b.z)` — the axial component `pol.z` is not added. -/
theorem C3_amended (E : EllipApi) (point : Vec3) (radius height : ℝ) (pol : Vec3) (b : Vec3)
    (hb : cyl_B_cyl E (cart2cyl point.x point.y).1
        ((cart2cyl point.x point.y).2 - (cart2cyl pol.x pol.y).2) point.z radius height
        (cart2cyl pol.x pol.y).1 pol.z = .ok b)
    (hin : (cart2cyl point.x point.y).1 ≤ radius ∧ |point.z| ≤ height / 2) :
    local_cyl_B E point radius height pol =
      .ok ⟨(vec_cyl2cart b.x b.y (cart2cyl point.x point.y).2).1 + pol.x,
           (vec_cyl2cart b.x b.y (cart2cyl point.x point.y).2).2 + pol.y,
           b.z⟩ := by
  rw [local_cyl_B, hb, Outcome.bind_ok, if_pos hin]

/-- Claim C3 (witness): the amended theorem applied at the interior point
`(0,0,0)` of the radius-1 height-2 magnet with polarization `(0,0,1)`. -/
theorem C3_amended_witness :
    local_cyl_B someEllip ⟨0, 0, 0⟩ 1 2 ⟨0, 0, 1⟩ = .ok ⟨0, 0, Real.sqrt 2 / 2⟩ := by
  have hb : cyl_B_cyl someEllip (cart2cyl (0 : ℝ) 0).1
      ((cart2cyl (0 : ℝ) 0).2 - (cart2cyl (0 : ℝ) 0).2) 0 1 2
      (cart2cyl (0 : ℝ) 0).1 1 = .ok ⟨0, 0, Real.sqrt 2 / 2⟩ := by
    rw [cart2cyl_zero]
    norm_num [cyl_B_cyl_center someEllip]
  have h := C3_amended someEllip ⟨0, 0, 0⟩ 1 2 ⟨0, 0, 1⟩ ⟨0, 0, Real.sqrt 2 / 2⟩ hb
    (by rw [cart2cyl_zero]; norm_num)
  rw [h]
  rw [cart2cyl_zero]
  simp only [Outcome.ok.injEq, Vec3.mk.injEq, vec_cyl2cart]
  norm_num

/-- Claim C9 (counterexample): `CylinderMagnet::new` called with radius `-1`
and height `-2` succeeds and stores the non-positive geometry verbatim — the
constructor's return type is the plain struct, so no `InvalidGeometry`
rejection exists. -/
theorem C9_counterexample :
    CylinderMagnet.new 0 1 ⟨0, 0, 1⟩ (-1) (-2)
      = ⟨0, 1, ⟨0, 0, 1⟩, -1, -2⟩ := rfl

/-- Claim C9 (amended): construction performs no validation — `new` stores any
radius and height, including non-positive ones, verbatim, and field evaluation
is reachable on such magnets: `get_B` delegates to `cyl_B` with whatever
geometry was stored, with no per-construction or per-evaluation geometry
check. -/
theorem C9_amended (position : Vec3) (orientation : Quat) (polarization : Vec3)
    (radius height : ℝ) :
    ((CylinderMagnet.new position orientation polarization radius height).radius = radius ∧
     (CylinderMagnet.new position orientation polarization radius height).height = height) ∧
    ∀ (E : EllipApi) (points : List Vec3),
      (CylinderMagnet.new position orientation polarization radius height).get_B E points
        = cyl_B E points position orientation radius height polarization :=
  ⟨⟨rfl, rfl⟩, fun _ _ => rfl⟩

/-! ## Collection aggregation lemmas -/

theorem collectResults_ok {α : Type} :
    ∀ {os : List (Outcome α)} {bs : List α},
      List.Forall₂ (fun o b => o = .ok b) os bs → collectResults os = .ok bs := by
  intro os bs h
  induction h with
  | nil => rfl
  | cons hfb _ ih =>
    simp only [collectResults, hfb, ih, Outcome.bind_ok, Outcome.map_ok]

theorem collectResults_err {α : Type} (e : String) :
    ∀ (pre : List (Outcome α)) (o : Outcome α) (post : List (Outcome α)),
      (∀ x ∈ pre, ∃ ys, x = .ok ys) → o = .err e →
      collectResults (pre ++ o :: post) = .err e := by
  intro pre o post hpre ho
  induction pre with
  | nil =>
    rw [List.nil_append]
    show Outcome.bind o _ = _
    rw [ho, Outcome.bind_err]
  | cons x xs ih =>
    obtain ⟨ys, hys⟩ := hpre x (List.mem_cons_self x xs)
    have htail := ih (fun y hy => hpre y (List.mem_cons_of_mem x hy))
    rw [List.cons_append]
    show Outcome.bind x (fun a => Outcome.map (a :: ·) (collectResults (xs ++ o :: post))) = _
    rw [hys, Outcome.bind_ok, htail, Outcome.map_err]

theorem netField_length (bs : List (List Vec3)) (n : ℕ) : (netField bs n).length = n := by
  simp [netField]

/-- Claim C4 (counterexample): two collections with the identical single child
`centerMagnet` but different collection poses (origin vs position `(0,0,5)`)
evaluate to the *same* field `(0, 0, √2/2)` at the point `(0,0,0)` — the
collection's own pose plays no part in field evaluation, contradicting the
claim that the fields are different, correspondingly transformed. -/
theorem C4_counterexample :
    colAtOrigin.get_B someEllip [⟨0, 0, 0⟩] = .ok [⟨0, 0, Real.sqrt 2 / 2⟩] ∧
    colShifted.get_B someEllip [⟨0, 0, 0⟩] = .ok [⟨0, 0, Real.sqrt 2 / 2⟩] := by
  have h : ∀ pos q, SourceCollection.get_B someEllip ⟨pos, q, [centerMagnet]⟩ [⟨0, 0, 0⟩]
      = .ok [⟨0, 0, Real.sqrt 2 / 2⟩] := by
    intro pos q
    rw [SourceCollection.get_B]
    simp only [List.map_cons, List.map_nil, collectResults, centerMagnet_get_B someEllip,
      Outcome.bind_ok, Outcome.map_ok, netField]
    simp [vsum, List.range_succ]
  exact ⟨h 0 1, h ⟨0, 0, 5⟩ 1⟩

/-- Claim C4 (amended): field evaluation of a collection ignores the
collection's own pose entirely — each child's `get_B` is invoked on the global
points directly, so a child's stored pose *is* its effective global pose, and
two collections with identical children but different poses evaluate to
identical fields.  The collection pose matters only as the reference frame of
the `Transform` operations. -/
theorem C4_amended (E : EllipApi) (p1 p2 : Vec3) (q1 q2 : Quat)
    (children : List CylinderMagnet) (pts : List Vec3) :
    SourceCollection.get_B E ⟨p1, q1, children⟩ pts
      = SourceCollection.get_B E ⟨p2, q2, children⟩ pts := rfl

/-- Claim C5: (success half) if every child of a collection evaluates to `Ok`
with one vector per point, the collection's `get_B` returns `Ok` of a list of
the same length as the point list whose `i`-th entry is the vector sum over
children of that child's value at point `i`; (failure half) if some child
fails with an error and the children before it succeed, the collection's
`get_B` returns that error. -/
theorem C5_superposition :
    (∀ (col : MultiSourceCollection) (pts : List Vec3) (bs : List (List Vec3)),
      List.Forall₂ (fun f b => f pts = Outcome.ok b) col.children bs →
      (∀ b ∈ bs, b.length = pts.length) →
      col.get_B pts = .ok (netField bs pts.length) ∧
      (netField bs pts.length).length = pts.length ∧
      ∀ i, i < pts.length →
        (netField bs pts.length)[i]? = some (vsum (bs.map (fun b => b.getD i 0)))) ∧
    (∀ (col : MultiSourceCollection) (pts : List Vec3)
      (pre : List (List Vec3 → Outcome (List Vec3))) (f : List Vec3 → Outcome (List Vec3))
      (post : List (List Vec3 → Outcome (List Vec3))) (e : String),
      col.children = pre ++ f :: post →
      (∀ g ∈ pre, ∃ ys, g pts = Outcome.ok ys) →
      f pts = .err e →
      col.get_B pts = .err e) := by
  constructor
  · intro col pts bs hall hlen
    have hmap : List.Forall₂ (fun o b => o = Outcome.ok b)
        (col.children.map (fun f => f pts)) bs := by
      rw [List.forall₂_map_left_iff]
      exact hall
    refine ⟨?_, netField_length bs pts.length, ?_⟩
    · rw [MultiSourceCollection.get_B, collectResults_ok hmap, Outcome.bind_ok]
    · intro i hi
      simp [netField, List.getElem?_map, List.getElem?_range, hi]
  · intro col pts pre f post e hch hpre hf
    have hsplit : col.children.map (fun g => g pts)
        = pre.map (fun g => g pts) ++ (f pts) :: post.map (fun g => g pts) := by
      rw [hch, List.map_append, List.map_cons]
    have hpre2 : ∀ x ∈ pre.map (fun g => g pts), ∃ ys, x = Outcome.ok ys := by
      intro x hx
      obtain ⟨g, hg, rfl⟩ := List.mem_map.mp hx
      exact hpre g hg
    rw [MultiSourceCollection.get_B, hsplit,
      collectResults_err e (pre.map (fun g => g pts)) (f pts) (post.map (fun g => g pts))
        hpre2 hf, Outcome.bind_err]

/-- Claim C5 (witness): a collection of two sources returning `(1,0,0)` and
`(0,1,0)` at every point sums to `(1,1,0)` at the single evaluation point. -/
theorem C5_superposition_witness :
    MultiSourceCollection.get_B
      ⟨0, 1, [fun _ => .ok [⟨1, 0, 0⟩], fun _ => .ok [⟨0, 1, 0⟩]]⟩ [⟨0, 0, 0⟩]
      = .ok [⟨1, 1, 0⟩] := by
  have h := (C5_superposition.1
    ⟨0, 1, [fun _ => .ok [⟨1, 0, 0⟩], fun _ => .ok [⟨0, 1, 0⟩]]⟩ [⟨0, 0, 0⟩]
    [[⟨1, 0, 0⟩], [⟨0, 1, 0⟩]]
    (by exact List.Forall₂.cons rfl (List.Forall₂.cons rfl List.Forall₂.nil))
    (by intro b hb; fin_cases hb <;> simp)).1
  rw [h]
  simp only [netField, List.range_succ, List.range_zero, List.nil_append, List.map_cons,
    List.map_nil, vsum_cons, vsum_nil, List.getD_cons_zero]
  refine congrArg Outcome.ok (congrArg (· :: []) ?_)
  ext <;> simp

/-! ## Rigid-motion algebra for collections -/

theorem Vec3.add_sub_cancel_right (v a : Vec3) : (v + a) - a = v := by
  ext <;> dsimp <;> ring

theorem Vec3.sub_sub_sub_cancel (x y a : Vec3) : (x - a) - (y - a) = x - y := by
  ext <;> dsimp <;> ring

theorem Vec3.add_sub_comm_cancel (m c p : Vec3) : (m + (p - c)) - p = m - c := by
  ext <;> dsimp <;> ring

theorem star_mul_self_unit (q : Quat) (h : Quaternion.normSq q = 1) : star q * q = 1 := by
  rw [Quaternion.star_mul_self, h, Quaternion.coe_one]

theorem rotAct_unrotate (ρ q : Quat) (hρ : Quaternion.normSq ρ = 1) (w : Vec3) :
    rotAct (star (ρ * q)) (rotAct ρ w) = rotAct (star q) w := by
  rw [rotAct_rotAct, star_mul, mul_assoc, star_mul_self_unit ρ hρ, mul_one]

theorem rotAct_star_cancel (u q : Quat) (hu : Quaternion.normSq u = 1) (w : Vec3) :
    rotAct (star u) (rotAct (u * q) w) = rotAct q w := by
  rw [rotAct_rotAct, ← mul_assoc, star_mul_self_unit u hu, one_mul]

theorem star_mul_unrotate (ρ q co : Quat) (hρ : Quaternion.normSq ρ = 1) :
    star (ρ * q) * (ρ * co) = star q * co := by
  rw [star_mul, mul_assoc, ← mul_assoc (star ρ), star_mul_self_unit ρ hρ, one_mul]

theorem star_mul_cancel_left (u x co : Quat) (hu : Quaternion.normSq u = 1) :
    star u * ((u * x) * co) = x * co := by
  rw [← mul_assoc, ← mul_assoc, star_mul_self_unit u hu, one_mul]

/-- Claim C6: each `Transform` operation on a collection (`translate`,
`set_position`, `rotate`, `rotate_anchor`, `set_orientation`) maps every child
by the listed child transform, and preserves the child's pose relative to the
collection frame — both the relative position
`orientation⁻¹ · (child.position − collection.position)` and the relative
orientation `orientation⁻¹ · child.orientation` — for unit rotation
quaternions. -/
theorem C6_relative_pose_invariant (col : SourceCollection) (m : CylinderMagnet)
    (ρ qn : Quat) (t a pnew : Vec3)
    (hρ : Quaternion.normSq ρ = 1) (hqn : Quaternion.normSq qn = 1) :
    ((col.translate t).children = col.children.map (fun c => c.translate t) ∧
      relPos (col.translate t) (m.translate t) = relPos col m ∧
      relOrient (col.translate t) (m.translate t) = relOrient col m) ∧
    ((col.set_position pnew).children
        = col.children.map (fun c => c.translate (pnew - col.position)) ∧
      relPos (col.set_position pnew) (m.translate (pnew - col.position)) = relPos col m ∧
      relOrient (col.set_position pnew) (m.translate (pnew - col.position))
        = relOrient col m) ∧
    ((col.rotate ρ).children = col.children.map (fun c => c.rotate_anchor ρ col.position) ∧
      relPos (col.rotate ρ) (m.rotate_anchor ρ col.position) = relPos col m ∧
      relOrient (col.rotate ρ) (m.rotate_anchor ρ col.position) = relOrient col m) ∧
    ((col.rotate_anchor ρ a).children
        = col.children.map (fun c => c.rotate_anchor ρ a) ∧
      relPos (col.rotate_anchor ρ a) (m.rotate_anchor ρ a) = relPos col m ∧
      relOrient (col.rotate_anchor ρ a) (m.rotate_anchor ρ a) = relOrient col m) ∧
    ((col.set_orientation qn).children
        = col.children.map (fun c => c.rotate_anchor (qn * star col.orientation) col.position) ∧
      relPos (col.set_orientation qn)
          (m.rotate_anchor (qn * star col.orientation) col.position) = relPos col m ∧
      relOrient (col.set_orientation qn)
          (m.rotate_anchor (qn * star col.orientation) col.position) = relOrient col m) := by
  refine ⟨⟨rfl, ?_, rfl⟩, ⟨rfl, ?_, rfl⟩, ⟨rfl, ?_, ?_⟩, ⟨rfl, ?_, ?_⟩, ⟨rfl, ?_, ?_⟩⟩
  · -- translate, relative position
    simp only [relPos, SourceCollection.translate, CylinderMagnet.translate]
    rw [Vec3.add_sub_add_right]
  · -- set_position, relative position
    simp only [relPos, SourceCollection.set_position, CylinderMagnet.translate]
    rw [Vec3.add_sub_comm_cancel]
  · -- rotate, relative position
    simp only [relPos, SourceCollection.rotate, CylinderMagnet.rotate_anchor]
    rw [Vec3.add_sub_cancel_right, rotAct_unrotate ρ col.orientation hρ]
  · -- rotate, relative orientation
    simp only [relOrient, SourceCollection.rotate, CylinderMagnet.rotate_anchor]
    rw [star_mul_unrotate ρ col.orientation m.orientation hρ]
  · -- rotate_anchor, relative position
    simp only [relPos, SourceCollection.rotate_anchor, CylinderMagnet.rotate_anchor]
    rw [Vec3.add_sub_add_right, rotAct_sub, Vec3.sub_sub_sub_cancel,
      rotAct_unrotate ρ col.orientation hρ]
  · -- rotate_anchor, relative orientation
    simp only [relOrient, SourceCollection.rotate_anchor, CylinderMagnet.rotate_anchor]
    rw [star_mul_unrotate ρ col.orientation m.orientation hρ]
  · -- set_orientation, relative position
    simp only [relPos, SourceCollection.set_orientation, CylinderMagnet.rotate_anchor]
    rw [Vec3.add_sub_cancel_right, rotAct_star_cancel qn (star col.orientation) hqn]
  · -- set_orientation, relative orientation
    simp only [relOrient, SourceCollection.set_orientation, CylinderMagnet.rotate_anchor]
    rw [star_mul_cancel_left qn (star col.orientation) m.orientation hqn]

/-- Claim C6 (witness): the theorem applied to the concrete collection
`colAtOrigin` with child `centerMagnet` and identity rotations; stated here
for the `rotate` operation's relative position. -/
theorem C6_relative_pose_invariant_witness :
    relPos (colAtOrigin.rotate 1) (centerMagnet.rotate_anchor 1 colAtOrigin.position)
      = relPos colAtOrigin centerMagnet :=
  (C6_relative_pose_invariant colAtOrigin centerMagnet 1 1 ⟨1, 2, 3⟩ ⟨1, 0, 0⟩ ⟨0, 1, 0⟩
    (map_one Quaternion.normSq) (map_one Quaternion.normSq)).2.2.1.2.1

end









